import Mathlib

/-!
Shallow embedding of the reactive portfolio-dashboard script
(`panel_code.py`): the holdings table, the edit reconciler
(`handle_cell_edit`), the two chart projections (`candlestick`,
`portfolio_distribution`), the historical-data helper (`last_close`) and
the cell-styling helper (`style_of_action_cell`).

Numeric cell values (quantity, price, value) are modelled as rationals;
strings are Lean `String`s.  Python exceptions (pandas `KeyError`,
`TypeError`) become `Option.none`; the Tabulator table of positions
becomes a `List Position`; the `patches` `IntInput` widget becomes an
`Int` field of the dashboard state.
-/

namespace StockDash

/-- Color constant `GREEN` from the script. -/
def GREEN : String := "#5AD534"

/-- Color constant `RED` from the script. -/
def RED : String := "#D94467"

/-- One row of the holdings table (`summary_data`): the columns of the
editable Tabulator widget that carry data (the `info` HTML column is
presentation-only and omitted). -/
structure Position where
  ticker : String
  company : String
  quantity : Rat
  price : Rat
  value : Rat
  action : String
  notes : String
deriving Repr, DecidableEq

/-- The payload of a Tabulator cell edit: a number (quantity edits) or a
string (action / notes edits). -/
inductive CellValue where
  | num (q : Rat)
  | str (s : String)
deriving Repr, DecidableEq

/-- A Tabulator `on_edit` event: row index, column name, new cell value. -/
structure EditEvent where
  row : Nat
  column : String
  value : CellValue
deriving Repr, DecidableEq

/-- The mutable dashboard state touched by the edit reconciler: the
holdings table (`summary_table.value`) and the `patches` counter widget. -/
structure DashState where
  table : List Position
  patches : Int
deriving Repr, DecidableEq

/-- `table.patch(\x7b"value": [(row, v)]\x7d)`: replace the `value` cell of
the row at index `row`, leaving every other cell untouched.  Out-of-range
rows leave the table unchanged. -/
def patchValue : List Position → Nat → Rat → List Position
  | [], _, _ => []
  | p :: ps, 0, v => { p with value := v } :: ps
  | p :: ps, Nat.succ n, v => p :: patchValue ps n v

/-- `handle_cell_edit(event)` from the script: on a `quantity` edit, read
the row's current price, compute `value = quantity * price`, patch the
`value` cell, and increment `patches`; on any other column, do nothing.
`none` models the Python exception paths (row index missing from the
DataFrame, or a non-numeric quantity payload), in which case no mutation
happens at all. -/
def handle_cell_edit (event : EditEvent) (s : DashState) : Option DashState :=
  if event.column = "quantity" then
    match event.value with
    | CellValue.num q =>
      match s.table[event.row]? with
      | some pos =>
        some { table := patchValue s.table event.row (q * pos.price),
               patches := s.patches + 1 }
      | none => none
    | CellValue.str _ => none
  else
    some s

/-- Dispatch a sequence of edit events through the reconciler, one at a
time (the single-threaded event loop).  An event whose handler raises
leaves the state unchanged. -/
def processEdits (events : List EditEvent) (s : DashState) : DashState :=
  events.foldl (fun st e => (handle_cell_edit e st).getD st) s

/-- `patchValue` at the patched index: the row keeps everything but its
`value` field. -/
theorem patchValue_getElem_self (l : List Position) (r : Nat) (v : Rat) :
    (patchValue l r v)[r]? = (l[r]?).map (fun p => { p with value := v }) := by
  induction l generalizing r with
  | nil => cases r <;> rfl
  | cons p ps ih =>
    cases r with
    | zero => simp [patchValue]
    | succ n => simpa [patchValue] using ih n

/-- `patchValue` leaves every other row identical. -/
theorem patchValue_getElem_ne (l : List Position) (r i : Nat) (v : Rat)
    (h : i ≠ r) : (patchValue l r v)[i]? = l[i]? := by
  induction l generalizing r i with
  | nil => cases r <;> rfl
  | cons p ps ih =>
    cases r with
    | zero =>
      cases i with
      | zero => exact absurd rfl h
      | succ j => simp [patchValue]
    | succ n =>
      cases i with
      | zero => simp [patchValue]
      | succ j => simpa [patchValue] using ih n j (fun hj => h (by omega))

/-- One row of the downloaded historical equity data
(`historical_data`), keyed by (Ticker, Date); dates are modelled as
integers (days). -/
structure HistEntry where
  ticker : String
  date : Int
  Open : Rat
  High : Rat
  Low : Rat
  Close : Rat
deriving Repr, DecidableEq

/-- `historical_data.loc[ticker]`: the sub-table of rows for one ticker,
in file order. -/
def rowsFor (data : List HistEntry) (ticker : String) : List HistEntry :=
  data.filter (fun r => r.ticker == ticker)

/-- `last_close(ticker)`: `data.loc[ticker]["Close"].iloc[-1]` — the
`Close` of the last row for the ticker; `none` models the pandas
`KeyError` when the ticker has no rows. -/
def last_close (ticker : String) (data : List HistEntry) : Option Rat :=
  ((rowsFor data ticker).map HistEntry.Close).getLast?

/-- The Plotly candlestick figure produced by `candlestick`: the title
and the five data columns handed to `go.Candlestick`. -/
structure CandlestickChart where
  title : String
  x : List Int
  Open : List Rat
  High : List Rat
  Low : List Rat
  Close : List Rat
deriving Repr, DecidableEq

/-- Build the candlestick figure for a resolved ticker and company:
slice `historical_data` for the ticker and title the figure
`"(ticker) (company) Daily Price"`.  `none` models the pandas `KeyError`
raised by `historical_data.loc[ticker]` when the ticker has no rows. -/
def mkCandlestick (ticker company : String) (hist : List HistEntry) :
    Option CandlestickChart :=
  match rowsFor hist ticker with
  | [] => none
  | r :: rs =>
    some { title := ticker ++ " " ++ company ++ " Daily Price",
           x := (r :: rs).map HistEntry.date,
           Open := (r :: rs).map HistEntry.Open,
           High := (r :: rs).map HistEntry.High,
           Low := (r :: rs).map HistEntry.Low,
           Close := (r :: rs).map HistEntry.Close }

/-- `candlestick(selection, data)` from the script: with an empty
selection default to ticker `"AAPL"` / company `"Apple"`; otherwise
resolve ticker and company from row `selection[0]` of the holdings
snapshot (`none` models the `KeyError` when that row index is absent). -/
def candlestick (selection : List Nat) (data : List Position)
    (hist : List HistEntry) : Option CandlestickChart :=
  match selection with
  | [] => mkCandlestick "AAPL" "Apple" hist
  | index :: _ =>
    match data[index]? with
    | some p => mkCandlestick p.ticker p.company hist
    | none => none

/-- Round a rational to the nearest integer, ties to even — Python's
`round` / `format` rounding used by the `:,.0f` format spec.  Computed
on the reduced numerator and denominator: `f` is the floor of `q` and
`r` the remainder, so `2 * r` against `d` compares the fractional part
with one half. -/
def roundHalfEven (q : Rat) : Int :=
  let n : Int := q.num
  let d : Int := (q.den : Int)
  let f : Int := Int.fdiv n d
  let r : Int := n - f * d
  if 2 * r < d then f
  else if d < 2 * r then f + 1
  else if f % 2 = 0 then f else f + 1

/-- Insert a comma after every group of three characters of a reversed
digit string (the `,` thousands separator of the `:,.0f` format spec). -/
def commaRev : List Char → List Char
  | a :: b :: c :: d :: rest => a :: b :: c :: ',' :: commaRev (d :: rest)
  | l => l

/-- Python's `f"\x7bq:,.0f\x7d"`: round to an integer (half to even) and
group digits in threes with commas. -/
def formatMoney0f (q : Rat) : String :=
  let n : Int := roundHalfEven q
  let ds : List Char := (Nat.repr n.natAbs).data
  let grouped : List Char := (commaRev ds.reverse).reverse
  if n < 0 then String.mk ('-' :: grouped) else String.mk grouped

/-- The Plotly pie figure produced by `portfolio_distribution`: the
title and the (ticker, value) pairs handed to `px.pie` (the library
computes slice shares from the raw values; this code performs no
division). -/
structure PieChart where
  title : String
  slices : List (String × Rat)
deriving Repr, DecidableEq

/-- `portfolio_distribution(patches)` from the script: read the current
holdings snapshot, sum the `value` column, and build a pie chart of
`value` by `ticker` titled with the formatted total.  The `patches`
argument is only the recompute trigger. -/
def portfolio_distribution (patches : Int) (table : List Position) : PieChart :=
  let portfolio_total : Rat := (table.map Position.value).sum
  { title := "Portfolio Total $ " ++ formatMoney0f portfolio_total,
    slices := table.map (fun p => (p.ticker, p.value)) }

/-- Modelled from the spec: `total = sum(value over all positions)` of a
holdings snapshot (§4.4), used to compare the chart's displayed total
against the spec's words. -/
def spec_snapshotTotal (table : List Position) : Rat :=
  (table.map Position.value).sum

/-- The `colors` default argument of `style_of_action_cell`. -/
def actionColors : List (String × String) := [("buy", GREEN), ("sell", RED)]

/-- `style_of_action_cell(value)` from the script: CSS for an `action`
cell — `f"color: ..."` when the value is a key of `colors` (the lookup
is guarded by the membership test), the empty string otherwise. -/
def style_of_action_cell (value : String) : String :=
  match actionColors.lookup value with
  | some c => "color: " ++ c
  | none => ""

/-- `(a ++ b).data = a.data ++ b.data` for strings. -/
theorem string_data_append (a b : String) : (a ++ b).data = a.data ++ b.data := by
  cases a; cases b; rfl

/-- `s` occurs as a contiguous substring of `t`. -/
def strContains (t s : String) : Prop :=
  ∃ l r : List Char, t.data = l ++ s.data ++ r

/-! ### Concrete fixtures used to instantiate the theorems -/

/-- A one-row holdings table: AAPL, 75 shares at a last close of 2. -/
def posAAPL : Position :=
  { ticker := "AAPL", company := "Apple", quantity := 75, price := 2,
    value := 150, action := "buy", notes := "" }

/-- A position for MSFT used by the chart fixtures. -/
def posMSFT : Position :=
  { ticker := "MSFT", company := "Microsoft", quantity := 40, price := 20,
    value := 800, action := "sell", notes := "" }

/-- Initial dashboard state: the one-row table, `patches = 0`. -/
def st0 : DashState := { table := [posAAPL], patches := 0 }

/-- A quantity edit on row 0 setting the share count to 100. -/
def evQ : EditEvent := { row := 0, column := "quantity", value := CellValue.num 100 }

/-- A notes edit on row 0. -/
def evNotes : EditEvent := { row := 0, column := "notes", value := CellValue.str "reviewed" }

/-- A small historical series: one AAPL day and two MSFT days with
strictly increasing dates. -/
def histW : List HistEntry :=
  [ { ticker := "AAPL", date := 1, Open := 10, High := 11, Low := 9, Close := 10 },
    { ticker := "MSFT", date := 1, Open := 20, High := 21, Low := 19, Close := 20 },
    { ticker := "MSFT", date := 2, Open := 21, High := 22, Low := 18, Close := 19 } ]

/-! ### Helper lemmas shared by the claim theorems -/

/-- An edit on any column other than `quantity` leaves the whole
dashboard state unchanged: the reconciler's `if` falls through to the
implicit else-branch and neither patches the table nor touches the
counter. -/
theorem handle_noop_of_ne_quantity (e : EditEvent) (s : DashState)
    (h : e.column ≠ "quantity") : handle_cell_edit e s = some s := by
  simp [handle_cell_edit, h]

/-- One dispatched event never decreases the `patches` counter. -/
theorem patches_mono_step (e : EditEvent) (s : DashState) :
    s.patches ≤ ((handle_cell_edit e s).getD s).patches := by
  unfold handle_cell_edit
  split
  · cases hv : e.value with
    | num q =>
      cases hg : s.table[e.row]? with
      | some pos => simp
      | none => simp
    | str t => simp
  · simp

/-- Successful processing of a quantity edit yields exactly the
single-cell `value` patch plus the counter increment. -/
theorem handle_quantity_eq (e : EditEvent) (s : DashState) (q : Rat)
    (p0 : Position) (hcol : e.column = "quantity")
    (hval : e.value = CellValue.num q) (hp0 : s.table[e.row]? = some p0) :
    handle_cell_edit e s =
      some { table := patchValue s.table e.row (q * p0.price),
             patches := s.patches + 1 } := by
  simp [handle_cell_edit, hcol, hval, hp0]

/-- The counter is non-decreasing across any dispatched edit sequence. -/
theorem processEdits_patches_mono (events : List EditEvent) (s : DashState) :
    s.patches ≤ (processEdits events s).patches := by
  induction events generalizing s with
  | nil => exact le_refl _
  | cons e es ih => exact le_trans (patches_mono_step e s) (ih _)

/-! ### Claim theorems -/

/-- C1: for every valid quantity edit with new quantity `q ≥ 0` on row
`r`, after `handle_cell_edit` processes the event the `value` cell of
row `r` equals `q * price[r]` exactly, and the `value` cells of every
other row are unchanged. -/
theorem C1_quantity_edit_recomputes_value (e : EditEvent) (s : DashState)
    (q : Rat) (hcol : e.column = "quantity") (hval : e.value = CellValue.num q)
    (hq : 0 ≤ q) (hrow : e.row < s.table.length) :
    ∃ s' p0, handle_cell_edit e s = some s' ∧
      s.table[e.row]? = some p0 ∧
      s'.table[e.row]? = some { p0 with value := q * p0.price } ∧
      ∀ i, i ≠ e.row →
        (s'.table[i]?).map Position.value = (s.table[i]?).map Position.value := by
  obtain ⟨p0, hp0⟩ : ∃ p0, s.table[e.row]? = some p0 :=
    ⟨s.table[e.row], List.getElem?_eq_getElem hrow⟩
  refine ⟨_, p0, handle_quantity_eq e s q p0 hcol hval hp0, hp0, ?_, ?_⟩
  · rw [patchValue_getElem_self, hp0]
    rfl
  · intro i hi
    rw [patchValue_getElem_ne _ _ _ _ hi]

/-- C1 witness: the quantity edit `evQ` (100 shares, row 0) on `st0`. -/
theorem C1_quantity_edit_recomputes_value_witness :
    ∃ s' p0, handle_cell_edit evQ st0 = some s' ∧
      st0.table[evQ.row]? = some p0 ∧
      s'.table[evQ.row]? = some { p0 with value := (100 : Rat) * p0.price } ∧
      ∀ i, i ≠ evQ.row →
        (s'.table[i]?).map Position.value = (st0.table[i]?).map Position.value :=
  C1_quantity_edit_recomputes_value evQ st0 100 rfl rfl (by decide) (by decide)

/-- C2 counterexample: a `notes` edit is processed without error, yet
the `patches` counter is not incremented — refuting the claim that
non-quantity edits still increment the ChangeCounter. -/
theorem C2_counterexample_notes_edit_does_not_increment :
    ¬ ((handle_cell_edit evNotes st0).map DashState.patches
        = some (st0.patches + 1)) := by
  decide

/-- C2 (amended): an edit whose column is not `quantity` skips the value
recompute and leaves the dashboard state — including the `patches`
counter — entirely unchanged. -/
theorem C2_nonquantity_edit_is_noop (e : EditEvent) (s : DashState)
    (h : e.column ≠ "quantity") : handle_cell_edit e s = some s :=
  handle_noop_of_ne_quantity e s h

/-- C2 witness: the `notes` edit `evNotes` on `st0`. -/
theorem C2_nonquantity_edit_is_noop_witness :
    handle_cell_edit evNotes st0 = some st0 :=
  C2_nonquantity_edit_is_noop evNotes st0 (by decide)

/-- C3: over every dispatched edit sequence the `patches` counter is
non-decreasing, and every successfully processed quantity edit
increments it by exactly 1. -/
theorem C3_counter_monotone_and_increment :
    (∀ (events : List EditEvent) (s : DashState),
        s.patches ≤ (processEdits events s).patches) ∧
    (∀ (e : EditEvent) (s s' : DashState), e.column = "quantity" →
        handle_cell_edit e s = some s' → s'.patches = s.patches + 1) := by
  refine ⟨processEdits_patches_mono, ?_⟩
  intro e s s' hcol h
  rw [handle_cell_edit, if_pos hcol] at h
  cases hv : e.value with
  | num q =>
    rw [hv] at h
    cases hg : s.table[e.row]? with
    | some pos =>
      rw [hg] at h
      cases h
      rfl
    | none => rw [hg] at h; cases h
  | str t => rw [hv] at h; cases h

/-- C3 witness: the edit sequence `[evQ]` on `st0`, and the single
quantity edit `evQ` whose successful result increments the counter. -/
theorem C3_counter_monotone_and_increment_witness :
    st0.patches ≤ (processEdits [evQ] st0).patches ∧
    ((handle_cell_edit evQ st0).getD st0).patches = st0.patches + 1 :=
  ⟨C3_counter_monotone_and_increment.1 [evQ] st0,
   C3_counter_monotone_and_increment.2 evQ st0
     ((handle_cell_edit evQ st0).getD st0) rfl rfl⟩

/-- C4: a single processed quantity edit mutates the store exactly once
— the new table is one single-cell `value` patch of the old one — and
the reconciler never re-enters its recompute branch on the patched
`value` column: any sequence of `value` edit events leaves the state
fixed, so no recursive reconciliation loop occurs. -/
theorem C4_single_patch_no_reentrant_loop (e : EditEvent) (s : DashState)
    (q : Rat) (hcol : e.column = "quantity") (hval : e.value = CellValue.num q)
    (hrow : e.row < s.table.length) :
    (∃ p0, s.table[e.row]? = some p0 ∧
       handle_cell_edit e s =
         some { table := patchValue s.table e.row (q * p0.price),
                patches := s.patches + 1 }) ∧
    (∀ (n : Nat) (ev : EditEvent) (t : DashState), ev.column = "value" →
       processEdits (List.replicate n ev) t = t) := by
  constructor
  · exact ⟨s.table[e.row],
      List.getElem?_eq_getElem hrow,
      handle_quantity_eq e s q _ hcol hval (List.getElem?_eq_getElem hrow)⟩
  · intro n ev t hev
    induction n generalizing t with
    | zero => rfl
    | succ m ih =>
      have hne : ev.column ≠ "quantity" := by rw [hev]; decide
      show processEdits (List.replicate m ev) ((handle_cell_edit ev t).getD t) = _
      rw [handle_noop_of_ne_quantity ev t hne]
      exact ih t

/-- C4 witness: the quantity edit `evQ` on `st0`. -/
theorem C4_single_patch_no_reentrant_loop_witness :
    (∃ p0, st0.table[evQ.row]? = some p0 ∧
       handle_cell_edit evQ st0 =
         some { table := patchValue st0.table evQ.row ((100 : Rat) * p0.price),
                patches := st0.patches + 1 }) ∧
    (∀ (n : Nat) (ev : EditEvent) (t : DashState), ev.column = "value" →
       processEdits (List.replicate n ev) t = t) :=
  C4_single_patch_no_reentrant_loop evQ st0 100 rfl rfl (by decide)

/-- C5: the total displayed in the allocation chart's title is exactly
the sum of the `value` column over the snapshot passed at recompute
time, and the chart has one slice per position carrying its raw value. -/
theorem C5_allocation_title_is_snapshot_total (p : Int) (table : List Position) :
    (portfolio_distribution p table).title =
      "Portfolio Total $ " ++ formatMoney0f (spec_snapshotTotal table) ∧
    (portfolio_distribution p table).slices =
      table.map (fun pos => (pos.ticker, pos.value)) :=
  ⟨rfl, rfl⟩

/-- C6: on a zero-total (e.g. empty) snapshot the allocation chart is
still produced — no exception, no division — with a degraded title
showing a zero total and one (zero-valued) slice per position. -/
theorem C6_zero_total_chart_degrades (p : Int) (table : List Position)
    (h : spec_snapshotTotal table = 0) :
    (portfolio_distribution p table).title = "Portfolio Total $ 0" ∧
    (portfolio_distribution p table).slices.length = table.length := by
  constructor
  · have ht : (portfolio_distribution p table).title =
        "Portfolio Total $ " ++ formatMoney0f (spec_snapshotTotal table) := rfl
    rw [ht, h]
    decide
  · simp [portfolio_distribution]

/-- C6 witness: the empty snapshot. -/
theorem C6_zero_total_chart_degrades_witness :
    (portfolio_distribution 0 []).title = "Portfolio Total $ 0" :=
  (C6_zero_total_chart_degrades 0 [] rfl).1

/-- When the sliced series is non-empty, `mkCandlestick` yields a chart
titled `"(ticker) (company) Daily Price"`. -/
theorem mkCandlestick_some_title (ticker company : String)
    (hist : List HistEntry) (h : rowsFor hist ticker ≠ []) :
    ∃ c, mkCandlestick ticker company hist = some c ∧
      c.title = ticker ++ " " ++ company ++ " Daily Price" := by
  cases hr : rowsFor hist ticker with
  | nil => exact absurd hr h
  | cons r rs =>
    exact ⟨{ title := ticker ++ " " ++ company ++ " Daily Price",
             x := (r :: rs).map HistEntry.date,
             Open := (r :: rs).map HistEntry.Open,
             High := (r :: rs).map HistEntry.High,
             Low := (r :: rs).map HistEntry.Low,
             Close := (r :: rs).map HistEntry.Close },
           by unfold mkCandlestick; rw [hr], rfl⟩

/-- The left part of a concatenation occurs in it. -/
theorem strContains_append_left (a b : String) : strContains (a ++ b) a :=
  ⟨[], b.data, by rw [string_data_append]; simp⟩

/-- The chart title contains the resolved ticker. -/
theorem title_strContains_ticker (tk co : String) :
    strContains (tk ++ " " ++ co ++ " Daily Price") tk :=
  ⟨[], (" " ++ co ++ " Daily Price").data,
    by simp [string_data_append, List.append_assoc]⟩

/-- The chart title contains the resolved company name. -/
theorem title_strContains_company (tk co : String) :
    strContains (tk ++ " " ++ co ++ " Daily Price") co :=
  ⟨(tk ++ " ").data, (" Daily Price").data,
    by simp [string_data_append, List.append_assoc]⟩

/-- C7: with an empty selection the price chart resolves to the fixed
default `"AAPL"` / `"Apple"` regardless of the snapshot; with selection
`[i]` it resolves ticker and company from row `i` of the snapshot at
call time, and the chart's title contains both. -/
theorem C7_price_chart_resolution (data : List Position)
    (hist : List HistEntry) (i : Nat) (p : Position)
    (hget : data[i]? = some p)
    (hA : rowsFor hist "AAPL" ≠ []) (hT : rowsFor hist p.ticker ≠ []) :
    (∃ c, candlestick [] data hist = some c ∧
       c.title = "AAPL Apple Daily Price") ∧
    (∃ c, candlestick [i] data hist = some c ∧
       c.title = p.ticker ++ " " ++ p.company ++ " Daily Price" ∧
       strContains c.title p.ticker ∧ strContains c.title p.company) := by
  constructor
  · obtain ⟨c, hc, ht⟩ := mkCandlestick_some_title "AAPL" "Apple" hist hA
    exact ⟨c, hc, by rw [ht]; rfl⟩
  · obtain ⟨c, hc, ht⟩ := mkCandlestick_some_title p.ticker p.company hist hT
    refine ⟨c, ?_, ht, ?_, ?_⟩
    · show (match data[i]? with
        | some p => mkCandlestick p.ticker p.company hist
        | none => none) = some c
      rw [hget]
      exact hc
    · rw [ht]; exact title_strContains_ticker _ _
    · rw [ht]; exact title_strContains_company _ _

/-- C7 witness: a one-row MSFT snapshot over the fixture series. -/
theorem C7_price_chart_resolution_witness :
    (∃ c, candlestick [] [posMSFT] histW = some c ∧
       c.title = "AAPL Apple Daily Price") ∧
    (∃ c, candlestick [0] [posMSFT] histW = some c ∧
       c.title = posMSFT.ticker ++ " " ++ posMSFT.company ++ " Daily Price" ∧
       strContains c.title posMSFT.ticker ∧
       strContains c.title posMSFT.company) :=
  C7_price_chart_resolution [posMSFT] histW 0 posMSFT (by decide)
    (by decide) (by decide)

/-- In a list of rows whose dates are pairwise strictly increasing, the
last row has the greatest date. -/
theorem getLast_date_is_max (l : List HistEntry) (h : l ≠ [])
    (hpw : l.Pairwise (fun a b => a.date < b.date)) :
    ∀ r ∈ l, r.date ≤ (l.getLast h).date := by
  induction l with
  | nil => exact absurd rfl h
  | cons a t ih =>
    intro r hr
    cases t with
    | nil =>
      have hra : r = a := by simpa using hr
      subst hra
      exact le_refl _
    | cons b u =>
      rw [List.getLast_cons (List.cons_ne_nil b u)]
      rcases List.mem_cons.mp hr with hra | hrt
      · subst hra
        have hall := (List.pairwise_cons.mp hpw).1
        have hmem := List.getLast_mem (List.cons_ne_nil b u)
        exact le_of_lt (hall _ hmem)
      · exact ih (List.cons_ne_nil b u) (List.pairwise_cons.mp hpw).2 r hrt

/-- C8: when a ticker has at least one row, `last_close` returns the
`Close` of its last row — which, under the strictly-increasing-dates
invariant, is the most recent one — and when the ticker has no rows,
`last_close` fails (the pandas `KeyError`, modelled as `none`). -/
theorem C8_last_close_most_recent (data : List HistEntry) (ticker : String) :
    (∀ (h : rowsFor data ticker ≠ []),
       last_close ticker data = some (((rowsFor data ticker).getLast h).Close) ∧
       ((rowsFor data ticker).Pairwise (fun a b => a.date < b.date) →
          ∀ r ∈ rowsFor data ticker,
            r.date ≤ ((rowsFor data ticker).getLast h).date)) ∧
    (rowsFor data ticker = [] → last_close ticker data = none) := by
  constructor
  · intro h
    constructor
    · show ((rowsFor data ticker).map HistEntry.Close).getLast? = _
      rw [List.getLast?_map, List.getLast?_eq_getLast_of_ne_nil h]
      rfl
    · intro hpw
      exact getLast_date_is_max _ h hpw
  · intro h
    show ((rowsFor data ticker).map HistEntry.Close).getLast? = none
    rw [h]
    rfl

/-- C8 witness: MSFT has two fixture rows (closes 20 then 19), so the
last close is 19; a ticker absent from the series yields `none`. -/
theorem C8_last_close_most_recent_witness :
    last_close "MSFT" histW = some (19 : Rat) ∧
    last_close "TSLA" histW = none := by
  constructor
  · have h := ((C8_last_close_most_recent histW "MSFT").1 (by decide)).1
    rw [h]
    decide
  · exact (C8_last_close_most_recent histW "TSLA").2 (by decide)

/-- C9: the allocation chart is a function of the snapshot only — the
`patches` counter argument is a pure recompute trigger and never flows
into the produced chart. -/
theorem C9_allocation_chart_ignores_counter (p1 p2 : Int)
    (table : List Position) :
    portfolio_distribution p1 table = portfolio_distribution p2 table := rfl

/-- C10: `style_of_action_cell` is total: `"buy"` maps to the green CSS
string, `"sell"` to the red one, and every other string — including
`"hold"` — to the empty string, since the lookup is guarded. -/
theorem C10_action_cell_style_total (v : String) :
    style_of_action_cell "buy" = "color: #5AD534" ∧
    style_of_action_cell "sell" = "color: #D94467" ∧
    style_of_action_cell "hold" = "" ∧
    (v ≠ "buy" → v ≠ "sell" → style_of_action_cell v = "") := by
  refine ⟨by decide, by decide, by decide, ?_⟩
  intro h1 h2
  have b1 : (v == "buy") = false := beq_eq_false_iff_ne.mpr h1
  have b2 : (v == "sell") = false := beq_eq_false_iff_ne.mpr h2
  simp [style_of_action_cell, actionColors, List.lookup, b1, b2]

/-- C10 witness: the enum value `"hold"` through the general case. -/
theorem C10_action_cell_style_total_witness :
    style_of_action_cell "hold" = "" :=
  (C10_action_cell_style_total "hold").2.2.2 (by decide) (by decide)

end StockDash
